import Mathlib

/-!
Verification development for the Google Maps scraping extension
(`content.js`).  The engine is shallowly embedded: DOM reads that the
code performs are passed in as explicit observation values, the mutable
fields of the `GoogleMapsScraper` singleton become an explicit state
record, and each method becomes a pure Lean function on that state.
Push notifications sent with `chrome.runtime.sendMessage` are returned
as a list of `Msg` values (the `updateProgress` messages emitted inside
the traversal loop are not tracked; no claim concerns them).
-/

set_option maxRecDepth 10000

namespace GMaps

/-- Embeds JavaScript `String.prototype.trim` (whitespace stripped from
both ends), used on every `textContent` read in `content.js`. -/
def jsTrim (s : String) : String :=
  ⟨((s.data.dropWhile Char.isWhitespace).reverse.dropWhile Char.isWhitespace).reverse⟩

/-- `getUniqueUrl` (content.js line 121): `url.split('?')[0]` — the
canonical key is the URL with its query component removed; the empty
string maps to itself (the `!url` early return). -/
def getUniqueUrl (url : String) : String :=
  ⟨url.data.takeWhile (fun c => c ≠ '?')⟩

/-- One scraped listing, as pushed onto `this.scrapedData`
(content.js lines 399–412): the six extracted fields plus the original
full link (`data.url = rawUrl`) and the capture timestamp. -/
structure Rec where
  name : String
  phone : String
  website : String
  address : String
  rating : String
  reviews : String
  url : String
  scrapedAt : String
deriving DecidableEq

/-- The mutable collection state of the scraper: `this.scrapedData`
(append-only list) and `this.scrapedUrls` (set of canonical keys,
modelled as a list of strings without a duplicate-freeness assumption —
the code only ever inserts keys it has checked to be absent). -/
structure Store where
  scrapedData : List Rec
  scrapedUrls : List String
deriving DecidableEq

/-- Push notifications sent to the popup (`sendCount`, `sendProgress`,
`sendComplete`, `sendError`). -/
inductive Msg where
  | updateCount (count : Nat)
  | progress (message : String)
  | complete (count : Nat)
  | error (message : String)
deriving DecidableEq

/-- The result of `extractAllData()` (content.js line 350): one string
per field extractor, empty string when a field is missing. -/
structure DataFields where
  name : String
  phone : String
  website : String
  address : String
  rating : String
  reviews : String
deriving DecidableEq

/-- The DOM observations consumed by one `scrapeCard` call:
`previousName` is the pre-click `extractName()`, `outerPhone` the
card-level phone fallback, `currentName` the post-wait `extractName()`,
`data` the `extractAllData()` result, `scrapedAt` the timestamp
`new Date().toISOString()`. -/
structure CardEnv where
  previousName : String
  outerPhone : String
  currentName : String
  data : DataFields
  scrapedAt : String
deriving DecidableEq

/-- Result of one `scrapeCard` call: the returned boolean (`true` =
committed), the updated store, and the messages sent. -/
structure ScrapeOut where
  committed : Bool
  store : Store
  msgs : List Msg
deriving DecidableEq

/-- `scrapeCard(card)` (content.js lines 363–420).  In order: the
canonical-key dedup check; the unchanged-name duplicate-content check;
the outer-card phone substitution (`if (!data.phone && outerPhone)`);
the name gate `if (data.name)` guarding the commit, which appends the
record, adds the canonical key to the dedup set, and sends the updated
count. -/
def scrapeCard (s : Store) (href : String) (env : CardEnv) : ScrapeOut :=
  let uniqueUrl := getUniqueUrl href
  if uniqueUrl ∈ s.scrapedUrls then
    ⟨false, s, []⟩
  else if env.currentName = env.previousName ∧ env.previousName ≠ "" then
    ⟨false, s, []⟩
  else
    let d0 := env.data
    let d := if d0.phone = "" ∧ env.outerPhone ≠ "" then { d0 with phone := env.outerPhone } else d0
    if d.name ≠ "" then
      let r : Rec := ⟨d.name, d.phone, d.website, d.address, d.rating, d.reviews, href, env.scrapedAt⟩
      ⟨true, ⟨s.scrapedData ++ [r], uniqueUrl :: s.scrapedUrls⟩, [Msg.updateCount (s.scrapedData.length + 1)]⟩
    else
      ⟨false, s, []⟩

/-- A sequence of `scrapeCard` calls folded over the store. -/
def scrapeCalls (s : Store) : List (String × CardEnv) → Store
  | [] => s
  | (href, env) :: rest => scrapeCalls (scrapeCard s href env).store rest

/-- The store invariant maintained by `scrapeCard`: every committed
record's canonical key is in the dedup set, and no two committed
records share a canonical key. -/
def StoreInv (s : Store) : Prop :=
  (∀ r ∈ s.scrapedData, getUniqueUrl r.url ∈ s.scrapedUrls) ∧
  (s.scrapedData.map (fun r => getUniqueUrl r.url)).Nodup

/-- `this.MAX_SCROLL_FAILS` (content.js line 22): consecutive scroll
fails before stopping. -/
def MAX_SCROLL_FAILS : Nat := 3

/-- One iteration of the inner `for` loop of `start()`
(content.js lines 475–496), as observed from outside: the value of
`this.isRunning` at the loop-top check, the card's `href`, whether the
`scrapeCard` call threw (caught per-entry), and the DOM observations
`scrapeCard` consumes when it runs. -/
structure CardStep where
  running : Bool
  href : String
  throws : Bool
  env : CardEnv
deriving DecidableEq

/-- Result of the inner `for` loop: final store, final
`lastProcessedIndex`, `newDataThisRound`, and the list of indices at
which a `scrapeCard` call was actually attempted (dedup-skipped indices
are not attempts). -/
structure InnerOut where
  store : Store
  cursor : Nat
  newData : Nat
  attempts : List Nat
deriving DecidableEq

/-- The inner `for (let i = lastProcessedIndex; i < cards.length; i++)`
loop of `start()` (content.js lines 475–496).  `rest` is the snapshot
suffix from index `i` on.  Order per iteration, matching the code:
`isRunning` check (break before any update), `lastProcessedIndex = i+1`,
dedup `continue`, then the guarded `scrapeCard` attempt. -/
def innerLoop (st : Store) : List CardStep → Nat → Nat → InnerOut
  | [], i, nd => ⟨st, i, nd, []⟩
  | c :: cs, i, nd =>
    if c.running = false then ⟨st, i, nd, []⟩
    else if getUniqueUrl c.href ∈ st.scrapedUrls then
      innerLoop st cs (i + 1) nd
    else if c.throws then
      let r := innerLoop st cs (i + 1) nd
      { r with attempts := i :: r.attempts }
    else
      let out := scrapeCard st c.href c.env
      let r := innerLoop out.store cs (i + 1) (if out.committed then nd + 1 else nd)
      { r with attempts := i :: r.attempts }

/-- The observations one cycle of the `while (this.isRunning)` loop
consumes: `runningAtTop` is the `while` condition's read of
`this.isRunning`; `cards` the fresh snapshot `this.getCards()`;
`endReached` the `hasReachedEnd()` result; `beforeCount`/`afterCount`
the card counts read around `scrollFeed`. -/
structure CycleObs where
  runningAtTop : Bool
  cards : List CardStep
  endReached : Bool
  beforeCount : Nat
  afterCount : Nat
deriving DecidableEq

/-- One cycle's card processing (content.js lines 467–496): the
virtualization reset `if (cards.length < lastProcessedIndex)
lastProcessedIndex = 0` followed by the inner `for` loop starting at
the (possibly reset) cursor. -/
def cycleInner (st : Store) (cursor : Nat) (o : CycleObs) : InnerOut :=
  let c1 := if o.cards.length < cursor then 0 else cursor
  innerLoop st (o.cards.drop c1) c1 0

/-- How the `while (this.isRunning)` loop of `start()` exited:
`stoppedAtTop` = the `while` condition observed `false` (user stop);
`exhausted` = the `hasReachedEnd()` break; `stalled` = the
`MAX_SCROLL_FAILS` break; `outOfObs` = the supplied observation
sequence ran out with the loop still running (bounded model). -/
inductive StopKind where
  | stoppedAtTop
  | exhausted
  | stalled
  | outOfObs
deriving DecidableEq

/-- Result of running the traversal loop over a sequence of cycle
observations: exit kind, final store, final `consecutiveScrollFails`,
final `lastProcessedIndex`, all attempted indices in order, and whether
a virtualization reset of the cursor ever fired. -/
structure RunOut where
  kind : StopKind
  store : Store
  fails : Nat
  cursor : Nat
  attempts : List Nat
  hadReset : Bool
deriving DecidableEq

/-- The `while (this.isRunning)` loop of `start()`
(content.js lines 463–520).  Per cycle, in code order: the `while`
condition check; snapshot + cursor reset + inner `for` loop
(`cycleInner`); `hasReachedEnd()` break; the scroll-fail accounting
`if (afterCount <= beforeCount && newDataThisRound === 0)` which
increments `consecutiveScrollFails` and breaks at `MAX_SCROLL_FAILS`,
and otherwise resets the counter to 0. -/
def runLoop (st : Store) (fails cursor : Nat) : List CycleObs → RunOut
  | [] => ⟨.outOfObs, st, fails, cursor, [], false⟩
  | o :: os =>
    if o.runningAtTop = false then ⟨.stoppedAtTop, st, fails, cursor, [], false⟩
    else
      let reset := decide (o.cards.length < cursor)
      let I := cycleInner st cursor o
      if o.endReached then ⟨.exhausted, I.store, fails, I.cursor, I.attempts, reset⟩
      else if o.afterCount ≤ o.beforeCount ∧ I.newData = 0 then
        if MAX_SCROLL_FAILS ≤ fails + 1 then
          ⟨.stalled, I.store, fails + 1, I.cursor, I.attempts, reset⟩
        else
          let r := runLoop I.store (fails + 1) I.cursor os
          ⟨r.kind, r.store, r.fails, r.cursor, I.attempts ++ r.attempts, reset || r.hadReset⟩
      else
        let r := runLoop I.store 0 I.cursor os
        ⟨r.kind, r.store, r.fails, r.cursor, I.attempts ++ r.attempts, reset || r.hadReset⟩

/-- One polling snapshot of the document as read by
`waitForDetailPanel` (content.js lines 79–117): the `textContent`
values of the candidate `h1` elements, and the presence of
`button[data-item-id]`, `div[role="tablist"]`, and the hotel header
class `.DUwDvf`. -/
structure Doc where
  h1s : List String
  hasActionButtons : Bool
  hasTabs : Bool
  hasHotelClass : Bool
deriving DecidableEq

/-- The `detailH1` validation predicate (content.js lines 90–100):
trimmed text non-empty, not "Results", not "Google Maps", and different
from the previous place name. -/
def validDetailH1 (previousName t : String) : Bool :=
  let text := jsTrim t
  text ≠ "" && text ≠ "Results" && text ≠ "Google Maps" && text ≠ previousName

/-- Whether some candidate `h1` passes the `detailH1` validation. -/
def hasDetailH1 (d : Doc) (previousName : String) : Bool :=
  d.h1s.any (validDetailH1 previousName)

/-- The early-resolve condition (content.js line 106):
`detailH1 && (hasActionButtons || hasTabs || hasHotelClass)`. -/
def detailReady (d : Doc) (previousName : String) : Bool :=
  hasDetailH1 d previousName && (d.hasActionButtons || d.hasTabs || d.hasHotelClass)

/-- `waitForDetailPanel(previousName)` (content.js lines 79–117) over
an explicit sequence of per-tick document snapshots, the last snapshot
being the tick at which `elapsed >= this.DETAIL_TIMEOUT`: each tick
resolves `true` when `detailReady` holds, and at the timeout tick
resolves `!!detailH1`. -/
def waitForDetailPanel (previousName : String) : List Doc → Bool
  | [] => false
  | [d] => if detailReady d previousName then true else hasDetailH1 d previousName
  | d :: ds => if detailReady d previousName then true else waitForDetailPanel previousName ds

/-- Modelled from the spec's words (for comparison with the code's
timeout branch): a "valid title" is non-empty and not a known
placeholder — with no requirement of being distinct from the previous
name. -/
def specValidTitle (t : String) : Bool :=
  let text := jsTrim t
  text ≠ "" && text ≠ "Results" && text ≠ "Google Maps"

/-- Whether some candidate `h1` is a valid title in the spec's sense. -/
def specValidTitlePresent (d : Doc) : Bool :=
  d.h1s.any specValidTitle

/-- The separator characters of the phone regex character class
`[\d\s\-\(\)]` besides digits; `\s` is modelled as whitespace. -/
def isPhoneSep (c : Char) : Bool :=
  c.isWhitespace || c = '-' || c = '(' || c = ')'

/-- Membership in the repeated character class `[\d\s\-\(\)]`. -/
def isPhoneClassChar (c : Char) : Bool :=
  c.isDigit || isPhoneSep c

/-- The optional leading character class `[\+\(]`. -/
def isPhoneLead (c : Char) : Bool :=
  c = '+' || c = '('

/-- The JavaScript regex `[\+\(]?\d[\d\s\-\(\)]{6,}` anchored at the
head of the input: greedy optional lead, one digit, then a greedy
maximal run of class characters that must be at least 6 long.  When the
lead branch fails, backtracking to the empty optional also fails (a
lead character is never a digit), so the whole position fails.  Inputs
shorter than two characters can never reach the required length 7, so
they fail outright. -/
def phoneMatchAt : List Char → Option (List Char)
  | [] => none
  | [_] => none
  | c :: d :: rest =>
    if isPhoneLead c then
      if d.isDigit then
        if 6 ≤ (rest.takeWhile isPhoneClassChar).length then
          some (c :: d :: rest.takeWhile isPhoneClassChar)
        else none
      else none
    else if c.isDigit then
      if 6 ≤ ((d :: rest).takeWhile isPhoneClassChar).length then
        some (c :: (d :: rest).takeWhile isPhoneClassChar)
      else none
    else none

/-- `text.match(/[\+\(]?\d[\d\s\-\(\)]{6,}/)`: the leftmost match of
the phone pattern, as used by the detail-view button scan
(content.js line 178) and, as a boolean test, by the card-level scan
(content.js line 198). -/
def findPhoneMatch : List Char → Option (List Char)
  | [] => none
  | c :: cs =>
    match phoneMatchAt (c :: cs) with
    | some m => some m
    | none => findPhoneMatch cs

/-- `cell.replace(/"/g, '""')` (content.js line 558): every double
quote doubled. -/
def escapeQuotes (s : List Char) : List Char :=
  s.flatMap (fun c => if c = '"' then ['"', '"'] else [c])

/-- One serialized cell: `"${...}"` — the escaped content wrapped in
double quotes. -/
def csvCell (s : List Char) : List Char :=
  '"' :: (escapeQuotes s ++ ['"'])

/-- One serialized row: cells joined with `,` (content.js line 558). -/
def csvRow (cells : List (List Char)) : List Char :=
  List.intercalate [','] (cells.map csvCell)

/-- Rows joined with `\n` (content.js line 559). -/
def csvLines (rows : List (List (List Char))) : List Char :=
  List.intercalate ['\n'] (rows.map csvRow)

/-- The fixed header row (content.js line 546). -/
def csvHeaders : List (List Char) :=
  ["Name".data, "Phone".data, "Website".data, "Address".data, "Rating".data, "Reviews".data, "URL".data]

/-- The row built for one record (content.js lines 547–555); on a
record every field is already a string, so `d.name || ''` is the field
itself (empty fields stay empty). -/
def recRow (r : Rec) : List (List Char) :=
  [r.name.data, r.phone.data, r.website.data, r.address.data, r.rating.data, r.reviews.data, r.url.data]

/-- `generateCSVContent()` (content.js lines 545–560): header row plus
one row per record, every cell quoted with embedded quotes doubled,
cells joined by commas and rows by newlines. -/
def generateCSVContent (data : List Rec) : List Char :=
  csvLines (csvHeaders :: data.map recRow)

/-- Parse one quoted field under the stated quoting rule, starting just
after the opening quote: `""` is a literal quote, a lone `"` closes the
field, any other character (commas and newlines included) belongs to
the field.  Returns the field and the input after the closing quote. -/
def parseFieldAux : List Char → List Char × List Char
  | [] => ([], [])
  | c :: cs =>
    if c = '"' then
      match cs with
      | [] => ([], [])
      | c2 :: cs2 =>
        if c2 = '"' then
          let p := parseFieldAux cs2
          ('"' :: p.1, p.2)
        else ([], cs)
    else
      let p := parseFieldAux cs
      (c :: p.1, p.2)

/-- Unfolding: `parseFieldAux` on the empty input. -/
theorem pfa_nil : parseFieldAux [] = ([], []) := rfl

/-- Unfolding: a lone quote ends the field with nothing left. -/
theorem pfa_q_nil : parseFieldAux ['"'] = ([], []) := by
  rw [parseFieldAux.eq_def]
  rfl

/-- Unfolding: a doubled quote contributes one literal quote. -/
theorem pfa_qq (cs : List Char) :
    parseFieldAux ('"' :: '"' :: cs) = ('"' :: (parseFieldAux cs).1, (parseFieldAux cs).2) := by
  rw [parseFieldAux.eq_def]
  rfl

/-- Unfolding: a quote followed by a non-quote closes the field. -/
theorem pfa_q (c2 : Char) (cs2 : List Char) (h : ¬ c2 = '"') :
    parseFieldAux ('"' :: c2 :: cs2) = ([], c2 :: cs2) := by
  rw [parseFieldAux.eq_def]
  simp [h]

/-- Unfolding: a non-quote character belongs to the field. -/
theorem pfa_other (c : Char) (cs : List Char) (h : ¬ c = '"') :
    parseFieldAux (c :: cs) = (c :: (parseFieldAux cs).1, (parseFieldAux cs).2) := by
  rw [parseFieldAux.eq_def]
  simp [h]

/-- `(parseFieldAux l).2` never grows beyond the input. -/
theorem parseFieldAux_len (l : List Char) : (parseFieldAux l).2.length ≤ l.length := by
  induction l using parseFieldAux.induct with
  | case1 => simp [pfa_nil]
  | case2 => simp [pfa_q_nil]
  | case3 cs2 ih =>
    rw [pfa_qq]
    simp only [List.length_cons]
    omega
  | case4 c2 cs2 h =>
    rw [pfa_q c2 cs2 h]
    simp
  | case5 c2 cs2 h ih =>
    rw [pfa_other c2 cs2 h]
    simp only [List.length_cons]
    omega

/-- Parse one row of quoted fields: after each field a `,` continues
the row, a newline ends the row, and anything else (end of input, or a
malformed character) stops.  Returns the cells and the remaining
input. -/
def parseCells (input : List Char) : List (List Char) × List Char :=
  match input with
  | '"' :: cs =>
    let f := (parseFieldAux cs).1
    let r := (parseFieldAux cs).2
    if r.head? = some ',' then
      let p := parseCells r.tail
      (f :: p.1, p.2)
    else if r.head? = some '\n' then
      ([f], r.tail)
    else ([f], [])
  | other => ([], other)
termination_by input.length
decreasing_by
  have hlen := parseFieldAux_len cs
  rcases hr : (parseFieldAux cs).2 with _ | ⟨a, as⟩
  · simp
  · rw [hr] at hlen
    simp only [List.tail_cons, List.length_cons] at hlen ⊢
    omega

/-- Unfolding: `parseCells` on an input starting with a quote. -/
theorem parseCells_q (cs : List Char) :
    parseCells ('"' :: cs) =
      if (parseFieldAux cs).2.head? = some ',' then
        ((parseFieldAux cs).1 :: (parseCells (parseFieldAux cs).2.tail).1,
         (parseCells (parseFieldAux cs).2.tail).2)
      else if (parseFieldAux cs).2.head? = some '\n' then
        ([(parseFieldAux cs).1], (parseFieldAux cs).2.tail)
      else ([(parseFieldAux cs).1], []) := by
  rw [parseCells.eq_def]
  rfl

/-- Parse the whole document as rows of quoted cells. -/
def parseCSV : List Char → List (List (List Char))
  | [] => []
  | a :: rest =>
    if (parseCells (a :: rest)).2.length < (a :: rest).length then
      (parseCells (a :: rest)).1 :: parseCSV (parseCells (a :: rest)).2
    else [(parseCells (a :: rest)).1]
termination_by l => l.length
decreasing_by
  assumption

/-- Unfolding: `parseCSV` on a nonempty input. -/
theorem parseCSV_cons (a : Char) (rest : List Char) :
    parseCSV (a :: rest) =
      if (parseCells (a :: rest)).2.length < (a :: rest).length then
        (parseCells (a :: rest)).1 :: parseCSV (parseCells (a :: rest)).2
      else [(parseCells (a :: rest)).1] := by
  rw [parseCSV.eq_def]

/-- `List.intercalate` on a one-element list. -/
theorem intercalate_single (sep : List Char) (x : List Char) :
    List.intercalate sep [x] = x := by
  simp [List.intercalate]

/-- `List.intercalate` on a list of at least two elements. -/
theorem intercalate_cons2 (sep : List Char) (x y : List Char) (ys : List (List Char)) :
    List.intercalate sep (x :: y :: ys) = x ++ sep ++ List.intercalate sep (y :: ys) := by
  simp [List.intercalate, List.intersperse]

/-- Field-level round trip: parsing an escaped field followed by its
closing quote recovers the field, provided the following character is
not a quote (in generated output it is a comma, a newline, or the end
of the input). -/
theorem parseFieldAux_escape (s : List Char) (rest : List Char)
    (h : rest.head? ≠ some '"') :
    parseFieldAux (escapeQuotes s ++ '"' :: rest) = (s, rest) := by
  induction s with
  | nil =>
    simp only [escapeQuotes, List.flatMap_nil, List.nil_append]
    match rest, h with
    | [], _ => exact pfa_q_nil
    | r :: rs, h =>
      have hr : ¬ r = '"' := by
        intro he
        exact h (by simp [he])
      exact pfa_q r rs hr
  | cons c cs ih =>
    by_cases hc : c = '"'
    · subst hc
      have he : escapeQuotes ('"' :: cs) = '"' :: '"' :: escapeQuotes cs := by
        simp [escapeQuotes]
      rw [he, List.cons_append, List.cons_append, pfa_qq, ih]
    · have he : escapeQuotes (c :: cs) = c :: escapeQuotes cs := by
        simp [escapeQuotes, hc]
      rw [he, List.cons_append, pfa_other c _ hc, ih]

/-- Row-level round trip: parsing a serialized nonempty row followed by
a newline (or the end of the input) recovers exactly its cells. -/
theorem parseCells_round (cells : List (List Char)) :
    ∀ (c0 : List Char) (tail : List Char),
      (tail = [] ∨ tail.head? = some '\n') →
      parseCells (csvRow (c0 :: cells) ++ tail) = (c0 :: cells, tail.tail) := by
  induction cells with
  | nil =>
    intro c0 tail htail
    have h1 : csvRow [c0] = csvCell c0 := by
      simp [csvRow, intercalate_single]
    rw [h1]
    have h2 : csvCell c0 ++ tail = '"' :: (escapeQuotes c0 ++ '"' :: tail) := by
      simp [csvCell]
    rw [h2, parseCells_q]
    have hgood : tail.head? ≠ some '"' := by
      rcases htail with rfl | hnl
      · simp
      · rw [hnl]
        simp
    rw [parseFieldAux_escape c0 tail hgood]
    rcases htail with rfl | hnl
    · simp
    · simp [hnl]
  | cons c1 cells ih =>
    intro c0 tail htail
    have h1 : csvRow (c0 :: c1 :: cells) = csvCell c0 ++ [','] ++ csvRow (c1 :: cells) := by
      simp only [csvRow, List.map_cons]
      rw [intercalate_cons2]
    rw [h1]
    have h2 : (csvCell c0 ++ [','] ++ csvRow (c1 :: cells)) ++ tail
        = '"' :: (escapeQuotes c0 ++ '"' :: (',' :: (csvRow (c1 :: cells) ++ tail))) := by
      simp [csvCell]
    rw [h2, parseCells_q]
    rw [parseFieldAux_escape c0 (',' :: (csvRow (c1 :: cells) ++ tail)) (by simp)]
    simp [ih c1 tail htail]

/-- A serialized nonempty row always starts with a quote. -/
theorem csvRow_head (c0 : List Char) (cells : List (List Char)) :
    ∃ t, csvRow (c0 :: cells) = '"' :: t := by
  cases cells with
  | nil =>
    refine ⟨escapeQuotes c0 ++ ['"'], ?_⟩
    simp [csvRow, intercalate_single, csvCell]
  | cons c1 cells =>
    refine ⟨(escapeQuotes c0 ++ ['"']) ++ [','] ++ csvRow (c1 :: cells), ?_⟩
    simp only [csvRow, List.map_cons]
    rw [intercalate_cons2]
    simp [csvCell]

/-- Document-level round trip: parsing the serialization of any
nonempty list of nonempty rows recovers the rows exactly. -/
theorem parseCSV_round (rows : List (List (List Char))) :
    (∀ r ∈ rows, r ≠ []) → rows ≠ [] →
    parseCSV (csvLines rows) = rows := by
  induction rows with
  | nil => intro _ hne; exact absurd rfl hne
  | cons r rows ih =>
    intro hall _
    have hr : r ≠ [] := hall r (List.mem_cons_self r rows)
    obtain ⟨c0, cells, rfl⟩ : ∃ c0 cells, r = c0 :: cells := by
      cases r with
      | nil => exact absurd rfl hr
      | cons c0 cells => exact ⟨c0, cells, rfl⟩
    cases rows with
    | nil =>
      have h1 : csvLines [c0 :: cells] = csvRow (c0 :: cells) := by
        simp [csvLines, intercalate_single]
      rw [h1]
      obtain ⟨t, ht⟩ := csvRow_head c0 cells
      have hcells : parseCells (csvRow (c0 :: cells)) = (c0 :: cells, []) := by
        have := parseCells_round cells c0 [] (Or.inl rfl)
        simpa using this
      rw [ht] at hcells ⊢
      rw [parseCSV_cons, hcells]
      simp [parseCSV]
    | cons r2 rows =>
      have h1 : csvLines ((c0 :: cells) :: r2 :: rows)
          = csvRow (c0 :: cells) ++ '\n' :: csvLines (r2 :: rows) := by
        simp only [csvLines, List.map_cons]
        rw [intercalate_cons2]
        simp
      rw [h1]
      have hcells : parseCells (csvRow (c0 :: cells) ++ '\n' :: csvLines (r2 :: rows))
          = (c0 :: cells, csvLines (r2 :: rows)) := by
        have := parseCells_round cells c0 ('\n' :: csvLines (r2 :: rows)) (Or.inr (by simp))
        simpa using this
      obtain ⟨t, ht⟩ := csvRow_head c0 cells
      rw [ht] at hcells ⊢
      rw [List.cons_append] at hcells
      rw [List.cons_append, parseCSV_cons, hcells]
      have hlt : (csvLines (r2 :: rows)).length < ('"' :: (t ++ '\n' :: csvLines (r2 :: rows))).length := by
        simp [List.length_append]
        omega
      rw [if_pos hlt]
      have ih2 := ih (fun x hx => hall x (List.mem_cons_of_mem _ hx)) (by simp)
      rw [ih2]

/-- The scraper singleton's full state as seen by the message
listener: the collection state plus `this.isRunning`. -/
structure Engine where
  store : Store
  isRunning : Bool
deriving DecidableEq

/-- The commands the message listener dispatches on (content.js
lines 604–648). -/
inductive Command where
  | startScraping
  | stopScraping
  | resetData
  | getStatus
  | exportData
  | unknown
deriving DecidableEq

/-- The synchronous responses of the message listener. -/
inductive Response where
  | started
  | already_running
  | stopped (count : Nat)
  | resetDone (count : Nat)
  | statusIs (isRunning : Bool) (count : Nat)
  | no_data
  | exported
  | unknown_action
deriving DecidableEq

/-- The external observations `start()` consumes: whether
`getFeedContainer()` finds `div[role="feed"]`, and the per-cycle
observations of the traversal loop. -/
structure StartEnv where
  feedExists : Bool
  cycles : List CycleObs
deriving DecidableEq

/-- `start()` (content.js lines 444–529).  If already running, a no-op.
If no feed container exists, `sendError` and return — before
`isRunning` is ever set, so the early return also skips the trailing
`sendComplete`.  Otherwise the traversal loop runs, after which
`isRunning` is cleared and `sendComplete` fires (the loop's progress
and count messages are not tracked here). -/
def start (e : Engine) (env : StartEnv) : Engine × List Msg :=
  if e.isRunning then (e, [])
  else if env.feedExists = false then
    (e, [Msg.error "No search results found. Please search on Google Maps first."])
  else
    let r := runLoop e.store 0 0 env.cycles
    (⟨r.store, false⟩, [Msg.complete r.store.scrapedData.length])

/-- `reset()` (content.js lines 537–541): clears `scrapedData` and
`scrapedUrls` unconditionally; `isRunning` is untouched. -/
def reset (e : Engine) : Engine :=
  { e with store := ⟨[], []⟩ }

/-- The `chrome.runtime.onMessage` listener (content.js lines
604–653): dispatches a command against the engine state, returning the
new state, the synchronous response, and any push messages.  For
`startScraping` the response `{status: 'started'}` is sent regardless
of how the (asynchronous) `start()` fares.  For `export` only the
empty-data check is modelled (the file download is a side effect
outside the store). -/
def handleMessage (e : Engine) (env : StartEnv) : Command → Engine × Response × List Msg
  | .startScraping =>
    if e.isRunning then (e, .already_running, [])
    else
      let p := start e env
      (p.1, .started, p.2)
  | .stopScraping =>
    ({ e with isRunning := false }, .stopped e.store.scrapedData.length, [Msg.progress "Stopped by user"])
  | .resetData =>
    (reset e, .resetDone 0, [])
  | .getStatus =>
    (e, .statusIs e.isRunning e.store.scrapedData.length, [])
  | .exportData =>
    if e.store.scrapedData.length = 0 then (e, .no_data, [])
    else (e, .exported, [])
  | .unknown =>
    (e, .unknown_action, [])

/-- `scrapeCard` on an already-seen canonical key is the identity. -/
theorem scrapeCard_dup (s : Store) (href : String) (env : CardEnv)
    (h : getUniqueUrl href ∈ s.scrapedUrls) :
    scrapeCard s href env = ⟨false, s, []⟩ := by
  simp [scrapeCard, h]

/-- Case analysis on `scrapeCard`: every call either skips (returning
`false` with the store unchanged and no messages) or commits — and a
commit appends exactly one record whose `url` is the raw link and whose
`name` is the extracted name, prepends the canonical key to the dedup
set, and sends one count message; a commit can only happen when the key
was absent and the extracted name non-empty. -/
theorem scrapeCard_cases (s : Store) (href : String) (env : CardEnv) :
    scrapeCard s href env = ⟨false, s, []⟩ ∨
    ∃ r : Rec, r.url = href ∧ r.name = env.data.name ∧
      getUniqueUrl href ∉ s.scrapedUrls ∧ env.data.name ≠ "" ∧
      scrapeCard s href env =
        ⟨true, ⟨s.scrapedData ++ [r], getUniqueUrl href :: s.scrapedUrls⟩,
         [Msg.updateCount (s.scrapedData.length + 1)]⟩ := by
  unfold scrapeCard
  by_cases hdup : getUniqueUrl href ∈ s.scrapedUrls
  · left
    simp [hdup]
  · by_cases hchg : env.currentName = env.previousName ∧ env.previousName ≠ ""
    · left
      simp [hdup, hchg]
    · by_cases hph : env.data.phone = "" ∧ env.outerPhone ≠ ""
      · by_cases hname : env.data.name ≠ ""
        · right
          refine ⟨⟨env.data.name, env.outerPhone, env.data.website, env.data.address,
            env.data.rating, env.data.reviews, href, env.scrapedAt⟩, rfl, rfl, hdup, hname, ?_⟩
          simp [hdup, hchg, hph, hname]
        · left
          simp [hdup, hchg, hph, hname]
      · by_cases hname : env.data.name ≠ ""
        · right
          refine ⟨⟨env.data.name, env.data.phone, env.data.website, env.data.address,
            env.data.rating, env.data.reviews, href, env.scrapedAt⟩, rfl, rfl, hdup, hname, ?_⟩
          simp [hdup, hchg, hph, hname]
        · left
          simp [hdup, hchg, hph, hname]

/-- `scrapeCard` preserves the canonical-key store invariant. -/
theorem scrapeCard_inv (s : Store) (href : String) (env : CardEnv)
    (h : StoreInv s) :
    StoreInv (scrapeCard s href env).store := by
  rcases scrapeCard_cases s href env with heq | ⟨r, hurl, hnm, hdup, hname, heq⟩
  · rw [heq]
    exact h
  · rw [heq]
    obtain ⟨hmem, hnodup⟩ := h
    constructor
    · intro x hx
      simp only [List.mem_append, List.mem_singleton] at hx
      rcases hx with hold | rfl
      · exact List.mem_cons_of_mem _ (hmem x hold)
      · rw [hurl]
        exact List.mem_cons_self _ _
    · simp only [List.map_append, List.map_cons, List.map_nil]
      rw [List.nodup_append]
      refine ⟨hnodup, List.nodup_singleton _, ?_⟩
      intro a ha hb
      simp only [List.mem_singleton] at hb
      subst hb
      obtain ⟨x, hxmem, hxkey⟩ := List.mem_map.mp ha
      rw [hurl] at hxkey
      exact hdup (hxkey ▸ hmem x hxmem)

/-- `scrapeCalls` preserves the canonical-key store invariant. -/
theorem scrapeCalls_inv (calls : List (String × CardEnv)) :
    ∀ s : Store, StoreInv s → StoreInv (scrapeCalls s calls) := by
  induction calls with
  | nil => intro s h; exact h
  | cons hd tl ih =>
    intro s h
    exact ih _ (scrapeCard_inv s hd.1 hd.2 h)

/-- When the mapped keys of a list are distinct, at most one element
matches any given key. -/
theorem filter_key_len_le_one (l : List Rec) (k : String)
    (h : (l.map (fun r => getUniqueUrl r.url)).Nodup) :
    (l.filter (fun r => getUniqueUrl r.url == k)).length ≤ 1 := by
  induction l with
  | nil => simp
  | cons r l ih =>
    simp only [List.map_cons, List.nodup_cons] at h
    obtain ⟨hnotin, hnodup⟩ := h
    by_cases hk : getUniqueUrl r.url == k
    · have hkey : getUniqueUrl r.url = k := by
        simpa using hk
      have hnil : l.filter (fun x => getUniqueUrl x.url == k) = [] := by
        rw [List.filter_eq_nil_iff]
        intro a ha hak
        have : getUniqueUrl a.url = k := by simpa using hak
        exact hnotin (List.mem_map.mpr ⟨a, ha, this.trans hkey.symm⟩)
      simp [List.filter_cons, hk, hnil]
    · simp only [List.filter_cons, hk]
      simpa using ih hnodup

/-- Claim C1: canonical-key deduplication.  Over any sequence of
`scrapeCard` calls from a store satisfying the invariant: the invariant
is preserved, no two committed records share a canonical key, a call
whose canonical key is already in the dedup set returns the skipped
result with the store unchanged and no messages, and for every
canonical key at most one committed record carries it (so two URLs
differing only in their query string yield at most one record). -/
theorem scrapeCard_canonical_dedup (s : Store) (calls : List (String × CardEnv))
    (hinv : StoreInv s) :
    StoreInv (scrapeCalls s calls) ∧
    ((scrapeCalls s calls).scrapedData.map (fun r => getUniqueUrl r.url)).Nodup ∧
    (∀ href env, getUniqueUrl href ∈ s.scrapedUrls →
      scrapeCard s href env = ⟨false, s, []⟩) ∧
    (∀ k, ((scrapeCalls s calls).scrapedData.filter
      (fun r => getUniqueUrl r.url == k)).length ≤ 1) := by
  have hfin := scrapeCalls_inv calls s hinv
  exact ⟨hfin, hfin.2, fun href env h => scrapeCard_dup s href env h,
    fun k => filter_key_len_le_one _ k hfin.2⟩

/-- Witness for C1, run on the spec's own scenario: the same place
reached through `?hl=en` and `?hl=fr` commits exactly one record. -/
theorem scrapeCard_canonical_dedup_witness :
    StoreInv (⟨[], []⟩ : Store) ∧
    ((scrapeCalls ⟨[], []⟩
        [("https://www.google.com/maps/place/A?hl=en", ⟨"", "", "X", ⟨"X", "", "", "", "", ""⟩, "t"⟩),
         ("https://www.google.com/maps/place/A?hl=fr", ⟨"", "", "X", ⟨"X", "", "", "", "", ""⟩, "t"⟩)]).scrapedData.map
      (fun r => getUniqueUrl r.url)).Nodup :=
  ⟨⟨by simp, by simp⟩, (scrapeCard_canonical_dedup ⟨[], []⟩
    [("https://www.google.com/maps/place/A?hl=en", ⟨"", "", "X", ⟨"X", "", "", "", "", ""⟩, "t"⟩),
     ("https://www.google.com/maps/place/A?hl=fr", ⟨"", "", "X", ⟨"X", "", "", "", "", ""⟩, "t"⟩)]
    ⟨by simp, by simp⟩).2.1⟩

/-- `scrapeCard` preserves non-emptiness of all committed names. -/
theorem scrapeCard_names (s : Store) (href : String) (env : CardEnv)
    (h : ∀ r ∈ s.scrapedData, r.name ≠ "") :
    ∀ r ∈ (scrapeCard s href env).store.scrapedData, r.name ≠ "" := by
  rcases scrapeCard_cases s href env with heq | ⟨r, hurl, hnm, hdup, hname, heq⟩
  · rw [heq]
    exact h
  · rw [heq]
    intro x hx
    simp only [List.mem_append, List.mem_singleton] at hx
    rcases hx with hold | rfl
    · exact h x hold
    · rw [hnm]
      exact hname

/-- `scrapeCalls` preserves non-emptiness of all committed names. -/
theorem scrapeCalls_names (calls : List (String × CardEnv)) :
    ∀ s : Store, (∀ r ∈ s.scrapedData, r.name ≠ "") →
      ∀ r ∈ (scrapeCalls s calls).scrapedData, r.name ≠ "" := by
  induction calls with
  | nil => intro s h; exact h
  | cons hd tl ih =>
    intro s h
    exact ih _ (scrapeCard_names s hd.1 hd.2 h)

/-- Claim C2: the name gate.  Every reachable store has only records
with non-empty names; a `scrapeCard` call that passes the dedup and
unchanged-name gates (reaching step 8) commits exactly when the
extracted name is non-empty; a commit appends one record, prepends the
canonical key, and sends the count message; a non-commit leaves the
store unchanged and sends nothing. -/
theorem scrapeCard_name_gate (s : Store) (href : String) (env : CardEnv)
    (calls : List (String × CardEnv)) :
    ((∀ r ∈ s.scrapedData, r.name ≠ "") →
      ∀ r ∈ (scrapeCalls s calls).scrapedData, r.name ≠ "") ∧
    ((scrapeCard s href env).committed = true → env.data.name ≠ "") ∧
    (getUniqueUrl href ∉ s.scrapedUrls →
      ¬(env.currentName = env.previousName ∧ env.previousName ≠ "") →
      ((scrapeCard s href env).committed = true ↔ env.data.name ≠ "")) ∧
    ((scrapeCard s href env).committed = true →
      ∃ r : Rec, r.name = env.data.name ∧ r.url = href ∧
        (scrapeCard s href env).store.scrapedData = s.scrapedData ++ [r] ∧
        (scrapeCard s href env).store.scrapedUrls = getUniqueUrl href :: s.scrapedUrls ∧
        (scrapeCard s href env).msgs = [Msg.updateCount (s.scrapedData.length + 1)]) ∧
    ((scrapeCard s href env).committed = false →
      (scrapeCard s href env).store = s ∧ (scrapeCard s href env).msgs = []) := by
  have hb : (scrapeCard s href env).committed = true → env.data.name ≠ "" := by
    rcases scrapeCard_cases s href env with heq | ⟨r, hurl, hnm, hdup, hname, heq⟩
    · rw [heq]
      intro hc
      exact absurd hc (by simp)
    · intro _
      exact hname
  refine ⟨fun h => scrapeCalls_names calls s h, hb, ?_, ?_, ?_⟩
  · intro hdup hchg
    constructor
    · exact hb
    · intro hname
      unfold scrapeCard
      by_cases hph : env.data.phone = "" ∧ env.outerPhone ≠ ""
      · simp [hdup, hchg, hph, hname]
      · simp [hdup, hchg, hph, hname]
  · intro hc
    rcases scrapeCard_cases s href env with heq | ⟨r, hurl, hnm, hdup, hname, heq⟩
    · rw [heq] at hc
      exact absurd hc (by simp)
    · refine ⟨r, hnm, hurl, ?_, ?_, ?_⟩ <;> rw [heq]
  · intro hc
    rcases scrapeCard_cases s href env with heq | ⟨r, hurl, hnm, hdup, hname, heq⟩
    · rw [heq]
      exact ⟨rfl, rfl⟩
    · rw [heq] at hc
      exact absurd hc (by simp)

/-- Witness for C2: on an empty store with extracted name "X", the
commit happens exactly because the name is non-empty. -/
theorem scrapeCard_name_gate_witness :
    (scrapeCard ⟨[], []⟩ "u" ⟨"", "", "X", ⟨"X", "", "", "", "", ""⟩, "t"⟩).committed = true ↔
      DataFields.name ⟨"X", "", "", "", "", ""⟩ ≠ "" :=
  (scrapeCard_name_gate ⟨[], []⟩ "u" ⟨"", "", "X", ⟨"X", "", "", "", "", ""⟩, "t"⟩ []).2.2.1
    (by simp) (by simp)

/-- Claim C9: tabular export round trip.  For every record list, the
serialized output parses back (under the stated quoting rule) to the
fixed header row followed by exactly one row per record, in order, with
exactly the original field values. -/
theorem generateCSVContent_round_trip (data : List Rec) :
    parseCSV (generateCSVContent data) = csvHeaders :: data.map recRow := by
  unfold generateCSVContent
  apply parseCSV_round
  · intro r hr
    rcases List.mem_cons.mp hr with rfl | hmem
    · simp [csvHeaders]
    · obtain ⟨d, _, rfl⟩ := List.mem_map.mp hmem
      simp [recRow]
  · simp

/-- Claim C8, counterexample: with the engine Running and one record
collected, `resetData` still clears the record list — the engine does
not guard `reset` by the Running state. -/
theorem reset_while_running_counterexample :
    Engine.isRunning ⟨⟨[⟨"A", "", "", "", "", "", "u", "t"⟩], ["u"]⟩, true⟩ = true ∧
    (handleMessage ⟨⟨[⟨"A", "", "", "", "", "", "u", "t"⟩], ["u"]⟩, true⟩ ⟨true, []⟩
      Command.resetData).1.store.scrapedData = [] ∧
    Store.scrapedData ⟨[⟨"A", "", "", "", "", "", "u", "t"⟩], ["u"]⟩ ≠ [] := by
  refine ⟨rfl, rfl, ?_⟩
  simp

/-- Claim C8, amended: `resetData` clears the record list and dedup set
and responds `{status: 'reset', count: 0}` unconditionally, in every
engine state — Running included; `isRunning` itself is untouched. -/
theorem reset_unconditional (e : Engine) (env : StartEnv) :
    handleMessage e env Command.resetData
      = (⟨⟨[], []⟩, e.isRunning⟩, Response.resetDone 0, []) := rfl

/-- Claim C10: commanding `startScraping` while not running with no
feed container still responds `{status: 'started'}`; the failure
surfaces only as a `scrapingError` push, the engine stays not-running
with its records untouched, and no `scrapingComplete` is sent. -/
theorem start_without_feed (e : Engine) (env : StartEnv)
    (hrun : e.isRunning = false) (hfeed : env.feedExists = false) :
    handleMessage e env Command.startScraping
      = (e, Response.started,
         [Msg.error "No search results found. Please search on Google Maps first."]) ∧
    (handleMessage e env Command.startScraping).1.isRunning = false ∧
    (handleMessage e env Command.startScraping).1.store.scrapedData = e.store.scrapedData ∧
    ∀ n, Msg.complete n ∉ (handleMessage e env Command.startScraping).2.2 := by
  have h1 : handleMessage e env Command.startScraping
      = (e, Response.started,
         [Msg.error "No search results found. Please search on Google Maps first."]) := by
    simp [handleMessage, start, hrun, hfeed]
  refine ⟨h1, ?_, ?_, ?_⟩ <;> rw [h1]
  · exact hrun
  · intro n
    simp

/-- Witness for C10 on a concrete idle engine with no feed. -/
theorem start_without_feed_witness :
    handleMessage ⟨⟨[], []⟩, false⟩ ⟨false, []⟩ Command.startScraping
      = (⟨⟨[], []⟩, false⟩, Response.started,
         [Msg.error "No search results found. Please search on Google Maps first."]) :=
  (start_without_feed ⟨⟨[], []⟩, false⟩ ⟨false, []⟩ rfl rfl).1

/-- Claim C6, counterexample: the string `1------` is accepted by the
phone digit-pattern scan (one digit followed by six separator
characters), yet the accepted match contains exactly one digit — not
the at-least-seven the claim states. -/
theorem phone_pattern_counterexample :
    findPhoneMatch ['1', '-', '-', '-', '-', '-', '-']
      = some ['1', '-', '-', '-', '-', '-', '-'] ∧
    (List.filter Char.isDigit ['1', '-', '-', '-', '-', '-', '-']).length = 1 := by
  constructor
  · rfl
  · rfl

/-- Unfolding: `phoneMatchAt` on an input of length at least two. -/
theorem phoneMatchAt_two (c d : Char) (rest : List Char) :
    phoneMatchAt (c :: d :: rest) =
      if isPhoneLead c then
        if d.isDigit then
          if 6 ≤ (rest.takeWhile isPhoneClassChar).length then
            some (c :: d :: rest.takeWhile isPhoneClassChar)
          else none
        else none
      else if c.isDigit then
        if 6 ≤ ((d :: rest).takeWhile isPhoneClassChar).length then
          some (c :: (d :: rest).takeWhile isPhoneClassChar)
        else none
      else none := by
  rw [phoneMatchAt.eq_def]

/-- Everything `phoneMatchAt` accepts is at least 7 characters long,
contains a digit, and consists only of pattern characters. -/
theorem phoneMatchAt_spec (l m : List Char) (h : phoneMatchAt l = some m) :
    7 ≤ m.length ∧ 1 ≤ (m.filter Char.isDigit).length ∧
    ∀ c ∈ m, isPhoneClassChar c = true ∨ isPhoneLead c = true := by
  match l with
  | [] => exact absurd h (by simp [phoneMatchAt])
  | [c] => exact absurd h (by simp [phoneMatchAt])
  | c :: d :: rest =>
    rw [phoneMatchAt_two] at h
    by_cases hlead : isPhoneLead c
    · rw [if_pos hlead] at h
      by_cases hd : d.isDigit
      · rw [if_pos hd] at h
        by_cases hlen : 6 ≤ (rest.takeWhile isPhoneClassChar).length
        · rw [if_pos hlen] at h
          obtain rfl : c :: d :: rest.takeWhile isPhoneClassChar = m := by
            simpa using h
          refine ⟨by simp only [List.length_cons]; omega, ?_, ?_⟩
          · have hdm : d ∈ (c :: d :: rest.takeWhile isPhoneClassChar).filter Char.isDigit :=
              List.mem_filter.mpr ⟨by simp, hd⟩
            have h2 := List.length_pos.mpr (List.ne_nil_of_mem hdm)
            omega
          · intro x hx
            simp only [List.mem_cons] at hx
            rcases hx with rfl | rfl | hx
            · exact Or.inr hlead
            · exact Or.inl (by simp [isPhoneClassChar, hd])
            · exact Or.inl (List.mem_takeWhile_imp hx)
        · rw [if_neg hlen] at h
          exact absurd h (by simp)
      · rw [if_neg hd] at h
        exact absurd h (by simp)
    · rw [if_neg hlead] at h
      by_cases hd : c.isDigit
      · rw [if_pos hd] at h
        by_cases hlen : 6 ≤ ((d :: rest).takeWhile isPhoneClassChar).length
        · rw [if_pos hlen] at h
          obtain rfl : c :: (d :: rest).takeWhile isPhoneClassChar = m := by
            simpa using h
          refine ⟨by simp only [List.length_cons]; omega, ?_, ?_⟩
          · have hdm : c ∈ (c :: (d :: rest).takeWhile isPhoneClassChar).filter Char.isDigit :=
              List.mem_filter.mpr ⟨by simp, hd⟩
            have h2 := List.length_pos.mpr (List.ne_nil_of_mem hdm)
            omega
          · intro x hx
            simp only [List.mem_cons] at hx
            rcases hx with rfl | hx
            · exact Or.inl (by simp [isPhoneClassChar, hd])
            · exact Or.inl (List.mem_takeWhile_imp hx)
        · rw [if_neg hlen] at h
          exact absurd h (by simp)
      · rw [if_neg hd] at h
        exact absurd h (by simp)

/-- Claim C6, amended: every match accepted by the phone digit-pattern
scan is at least 7 characters long, starts with a digit after an
optional leading `+`/`(`, contains at least one digit, and consists
only of digits, separators, and the optional lead — but need not
contain 7 digits. -/
theorem findPhoneMatch_amended (s m : List Char) (h : findPhoneMatch s = some m) :
    7 ≤ m.length ∧ 1 ≤ (m.filter Char.isDigit).length ∧
    ∀ c ∈ m, isPhoneClassChar c = true ∨ isPhoneLead c = true := by
  induction s with
  | nil => exact absurd h (by simp [findPhoneMatch])
  | cons c cs ih =>
    rw [findPhoneMatch] at h
    cases hat : phoneMatchAt (c :: cs) with
    | some m2 =>
      rw [hat] at h
      have hmm : m2 = m := by simpa using h
      have hspec := phoneMatchAt_spec (c :: cs) m2 hat
      rwa [hmm] at hspec
    | none =>
      rw [hat] at h
      exact ih h

/-- Witness for the amended C6 on the concrete accepted match
`123-4567`. -/
theorem findPhoneMatch_amended_witness :
    7 ≤ (['1', '2', '3', '-', '4', '5', '6', '7'] : List Char).length ∧
    1 ≤ ((['1', '2', '3', '-', '4', '5', '6', '7'] : List Char).filter Char.isDigit).length ∧
    ∀ c ∈ (['1', '2', '3', '-', '4', '5', '6', '7'] : List Char),
      isPhoneClassChar c = true ∨ isPhoneLead c = true :=
  findPhoneMatch_amended ['1', '2', '3', '-', '4', '5', '6', '7']
    ['1', '2', '3', '-', '4', '5', '6', '7'] (by rfl)

/-- Unfolding: the wait on its final (timeout) tick. -/
theorem wfdp_single (p : String) (d : Doc) :
    waitForDetailPanel p [d] = if detailReady d p then true else hasDetailH1 d p := by
  rw [waitForDetailPanel.eq_def]

/-- Unfolding: the wait on a non-final tick. -/
theorem wfdp_cons (p : String) (d d2 : Doc) (ds : List Doc) :
    waitForDetailPanel p (d :: d2 :: ds)
      = if detailReady d p then true else waitForDetailPanel p (d2 :: ds) := by
  rw [waitForDetailPanel.eq_def]

/-- Claim C7, counterexample: at timeout with no ready tick, a valid
title in the spec's sense (non-empty, not a placeholder) is present —
the current detail panel still shows the previous place's name — yet
the wait resolves failed, because the code's timeout branch also
requires the title to differ from the previous name. -/
theorem waitForDetailPanel_counterexample :
    specValidTitlePresent ⟨["Cafe X"], false, false, false⟩ = true ∧
    waitForDetailPanel "Cafe X" [⟨["Cafe X"], false, false, false⟩] = false := by
  constructor
  · decide
  · decide

/-- `detailReady` entails that a passing title is present. -/
theorem detailReady_imp (d : Doc) (p : String) (h : detailReady d p = true) :
    hasDetailH1 d p = true :=
  (Bool.and_eq_true _ _ |>.mp h).1

/-- Claim C7, amended: the wait resolves `true` exactly when either
some tick satisfies the ready condition (a valid title distinct from
the previous name together with an action control, tab strip, or
category heading marker), or the final (timeout) tick shows a valid
title distinct from the previous name.  A valid title equal to the
previous name does not produce degraded success. -/
theorem waitForDetailPanel_semantics (p : String) (snaps : List Doc) (h : snaps ≠ []) :
    waitForDetailPanel p snaps = true ↔
      ((∃ d ∈ snaps, detailReady d p = true) ∨
       hasDetailH1 (snaps.getLast h) p = true) := by
  induction snaps with
  | nil => exact absurd rfl h
  | cons d ds ih =>
    cases ds with
    | nil =>
      rw [wfdp_single]
      by_cases hr : detailReady d p
      · simp [hr, List.getLast]
      · simp [hr, List.getLast]
    | cons d2 ds2 =>
      have hne : (d2 :: ds2) ≠ [] := by simp
      rw [wfdp_cons]
      by_cases hr : detailReady d p
      · simp only [if_pos hr, true_iff]
        exact Or.inl ⟨d, List.mem_cons_self _ _, hr⟩
      · rw [if_neg hr, ih hne]
        rw [List.getLast_cons hne]
        constructor
        · rintro (⟨x, hx, hxr⟩ | hlast)
          · exact Or.inl ⟨x, List.mem_cons_of_mem _ hx, hxr⟩
          · exact Or.inr hlast
        · rintro (⟨x, hx, hxr⟩ | hlast)
          · rcases List.mem_cons.mp hx with rfl | hx2
            · exact absurd hxr hr
            · exact Or.inl ⟨x, hx2, hxr⟩
          · exact Or.inr hlast

/-- Witness for the amended C7 on a single ready tick. -/
theorem waitForDetailPanel_semantics_witness :
    waitForDetailPanel "" [⟨["A"], true, false, false⟩] = true ↔
      ((∃ d ∈ [(⟨["A"], true, false, false⟩ : Doc)], detailReady d "" = true) ∨
       hasDetailH1 (List.getLast [(⟨["A"], true, false, false⟩ : Doc)] (by simp)) "" = true) :=
  waitForDetailPanel_semantics "" [⟨["A"], true, false, false⟩] (by simp)

/-- Unfolding: the inner loop past the end of the snapshot. -/
theorem innerLoop_nil (st : Store) (i nd : Nat) :
    innerLoop st [] i nd = ⟨st, i, nd, []⟩ := rfl

/-- Unfolding: one iteration of the inner loop. -/
theorem innerLoop_cons (st : Store) (c : CardStep) (cs : List CardStep) (i nd : Nat) :
    innerLoop st (c :: cs) i nd =
      if c.running = false then ⟨st, i, nd, []⟩
      else if getUniqueUrl c.href ∈ st.scrapedUrls then
        innerLoop st cs (i + 1) nd
      else if c.throws then
        { innerLoop st cs (i + 1) nd with
          attempts := i :: (innerLoop st cs (i + 1) nd).attempts }
      else
        { innerLoop (scrapeCard st c.href c.env).store cs (i + 1)
            (if (scrapeCard st c.href c.env).committed then nd + 1 else nd) with
          attempts := i :: (innerLoop (scrapeCard st c.href c.env).store cs (i + 1)
            (if (scrapeCard st c.href c.env).committed then nd + 1 else nd)).attempts } := by
  rw [innerLoop.eq_def]

/-- Bounds on the inner loop: the cursor only moves forward (at most to
the end of the snapshot), the attempted indices are strictly
increasing, and every attempted index lies at or after the start index
with the final cursor strictly beyond it. -/
theorem innerLoop_spec (cs : List CardStep) :
    ∀ (st : Store) (i nd : Nat),
      i ≤ (innerLoop st cs i nd).cursor ∧
      (innerLoop st cs i nd).cursor ≤ i + cs.length ∧
      List.Pairwise (· < ·) (innerLoop st cs i nd).attempts ∧
      (∀ j ∈ (innerLoop st cs i nd).attempts,
        i ≤ j ∧ j + 1 ≤ (innerLoop st cs i nd).cursor) := by
  induction cs with
  | nil =>
    intro st i nd
    rw [innerLoop_nil]
    simp
  | cons c cs ih =>
    intro st i nd
    rw [innerLoop_cons]
    by_cases hrun : c.running = false
    · simp only [if_pos hrun]
      simp
    · rw [if_neg hrun]
      by_cases hdup : getUniqueUrl c.href ∈ st.scrapedUrls
      · rw [if_pos hdup]
        obtain ⟨h1, h2, h3, h4⟩ := ih st (i + 1) nd
        refine ⟨by omega, by simp only [List.length_cons]; omega, h3, ?_⟩
        intro j hj
        obtain ⟨hj1, hj2⟩ := h4 j hj
        exact ⟨by omega, hj2⟩
      · rw [if_neg hdup]
        by_cases hthrow : c.throws
        · simp only [if_pos hthrow]
          obtain ⟨h1, h2, h3, h4⟩ := ih st (i + 1) nd
          refine ⟨by omega, by simp only [List.length_cons]; omega, ?_, ?_⟩
          · rw [List.pairwise_cons]
            refine ⟨fun j hj => ?_, h3⟩
            obtain ⟨hj1, _⟩ := h4 j hj
            omega
          · intro j hj
            rcases List.mem_cons.mp hj with rfl | hj2
            · exact ⟨le_refl _, h1⟩
            · obtain ⟨hj1, hj2'⟩ := h4 j hj2
              exact ⟨by omega, hj2'⟩
        · simp only [if_neg hthrow]
          obtain ⟨h1, h2, h3, h4⟩ := ih (scrapeCard st c.href c.env).store (i + 1)
            (if (scrapeCard st c.href c.env).committed then nd + 1 else nd)
          refine ⟨by omega, by simp only [List.length_cons]; omega, ?_, ?_⟩
          · rw [List.pairwise_cons]
            refine ⟨fun j hj => ?_, h3⟩
            obtain ⟨hj1, _⟩ := h4 j hj
            omega
          · intro j hj
            rcases List.mem_cons.mp hj with rfl | hj2
            · exact ⟨le_refl _, h1⟩
            · obtain ⟨hj1, hj2'⟩ := h4 j hj2
              exact ⟨by omega, hj2'⟩

/-- Unfolding: the traversal loop with no observations left. -/
theorem runLoop_nil (st : Store) (fails cursor : Nat) :
    runLoop st fails cursor [] = ⟨.outOfObs, st, fails, cursor, [], false⟩ := rfl

/-- Unfolding: one cycle of the traversal loop. -/
theorem runLoop_cons (st : Store) (fails cursor : Nat) (o : CycleObs) (os : List CycleObs) :
    runLoop st fails cursor (o :: os) =
      if o.runningAtTop = false then ⟨.stoppedAtTop, st, fails, cursor, [], false⟩
      else if o.endReached then
        ⟨.exhausted, (cycleInner st cursor o).store, fails, (cycleInner st cursor o).cursor,
         (cycleInner st cursor o).attempts, decide (o.cards.length < cursor)⟩
      else if o.afterCount ≤ o.beforeCount ∧ (cycleInner st cursor o).newData = 0 then
        if MAX_SCROLL_FAILS ≤ fails + 1 then
          ⟨.stalled, (cycleInner st cursor o).store, fails + 1, (cycleInner st cursor o).cursor,
           (cycleInner st cursor o).attempts, decide (o.cards.length < cursor)⟩
        else
          ⟨(runLoop (cycleInner st cursor o).store (fails + 1) (cycleInner st cursor o).cursor os).kind,
           (runLoop (cycleInner st cursor o).store (fails + 1) (cycleInner st cursor o).cursor os).store,
           (runLoop (cycleInner st cursor o).store (fails + 1) (cycleInner st cursor o).cursor os).fails,
           (runLoop (cycleInner st cursor o).store (fails + 1) (cycleInner st cursor o).cursor os).cursor,
           (cycleInner st cursor o).attempts ++
             (runLoop (cycleInner st cursor o).store (fails + 1) (cycleInner st cursor o).cursor os).attempts,
           decide (o.cards.length < cursor) ||
             (runLoop (cycleInner st cursor o).store (fails + 1) (cycleInner st cursor o).cursor os).hadReset⟩
      else
        ⟨(runLoop (cycleInner st cursor o).store 0 (cycleInner st cursor o).cursor os).kind,
         (runLoop (cycleInner st cursor o).store 0 (cycleInner st cursor o).cursor os).store,
         (runLoop (cycleInner st cursor o).store 0 (cycleInner st cursor o).cursor os).fails,
         (runLoop (cycleInner st cursor o).store 0 (cycleInner st cursor o).cursor os).cursor,
         (cycleInner st cursor o).attempts ++
           (runLoop (cycleInner st cursor o).store 0 (cycleInner st cursor o).cursor os).attempts,
         decide (o.cards.length < cursor) ||
           (runLoop (cycleInner st cursor o).store 0 (cycleInner st cursor o).cursor os).hadReset⟩ := by
  rw [runLoop.eq_def]

/-- Unfolding: the cycle when the snapshot shrank below the cursor. -/
theorem cycleInner_pos (st : Store) (cursor : Nat) (o : CycleObs)
    (h : o.cards.length < cursor) :
    cycleInner st cursor o = innerLoop st o.cards 0 0 := by
  simp only [cycleInner, if_pos h, List.drop_zero]

/-- Unfolding: the cycle when the snapshot did not shrink below the
cursor. -/
theorem cycleInner_neg (st : Store) (cursor : Nat) (o : CycleObs)
    (h : ¬ o.cards.length < cursor) :
    cycleInner st cursor o = innerLoop st (o.cards.drop cursor) cursor 0 := by
  simp only [cycleInner, if_neg h]

/-- Claim C4: the cursor invariant.  At each cycle start the cursor is
reset to 0 exactly when the fresh snapshot is strictly shorter than the
cursor — in which case processing resumes over the whole snapshot from
index 0 — and otherwise the cycle starts at the current cursor and
never moves it backwards; all indices attempted in the cycle lie at or
beyond the effective start. -/
theorem cursor_reset_invariant (st : Store) (cursor : Nat) (o : CycleObs) :
    (¬ o.cards.length < cursor → cursor ≤ (cycleInner st cursor o).cursor) ∧
    (o.cards.length < cursor → cycleInner st cursor o = innerLoop st o.cards 0 0) ∧
    (∀ j ∈ (cycleInner st cursor o).attempts,
      (if o.cards.length < cursor then 0 else cursor) ≤ j) ∧
    (if o.cards.length < cursor then 0 else cursor) ≤ (cycleInner st cursor o).cursor := by
  by_cases hlt : o.cards.length < cursor
  · rw [cycleInner_pos st cursor o hlt]
    obtain ⟨h1, h2, h3, h4⟩ := innerLoop_spec o.cards st 0 0
    refine ⟨fun hc => absurd hlt hc, fun _ => rfl, ?_, ?_⟩
    · rw [if_pos hlt]
      exact fun j hj => (h4 j hj).1
    · rw [if_pos hlt]
      exact h1
  · rw [cycleInner_neg st cursor o hlt]
    obtain ⟨h1, h2, h3, h4⟩ := innerLoop_spec (o.cards.drop cursor) st cursor 0
    refine ⟨fun _ => h1, fun hc => absurd hc hlt, ?_, ?_⟩
    · rw [if_neg hlt]
      exact fun j hj => (h4 j hj).1
    · rw [if_neg hlt]
      exact h1

/-- Witness for C4: with an empty snapshot and cursor 0 no reset fires
and the cursor does not move backwards. -/
theorem cursor_reset_invariant_witness :
    ¬ (CycleObs.cards ⟨true, [], false, 0, 0⟩).length < 0 ∧
    0 ≤ (cycleInner ⟨[], []⟩ 0 ⟨true, [], false, 0, 0⟩).cursor :=
  ⟨by decide, (cursor_reset_invariant ⟨[], []⟩ 0 ⟨true, [], false, 0, 0⟩).1 (by decide)⟩

/-- A cycle started without a virtualization reset attempts only
indices at or beyond the incoming cursor, in strictly increasing order,
and leaves the cursor beyond every attempted index. -/
theorem cycleInner_spec_no_reset (st : Store) (cursor : Nat) (o : CycleObs)
    (hnr : ¬ o.cards.length < cursor) :
    cursor ≤ (cycleInner st cursor o).cursor ∧
    List.Pairwise (· < ·) (cycleInner st cursor o).attempts ∧
    ∀ j ∈ (cycleInner st cursor o).attempts,
      cursor ≤ j ∧ j + 1 ≤ (cycleInner st cursor o).cursor := by
  rw [cycleInner_neg st cursor o hnr]
  obtain ⟨h1, h2, h3, h4⟩ := innerLoop_spec (o.cards.drop cursor) st cursor 0
  exact ⟨h1, h3, h4⟩

/-- Master lemma for runs without a virtualization reset: attempted
indices are strictly increasing across the whole cycle sequence, all at
or beyond the incoming cursor, and the final cursor lies strictly
beyond every attempt. -/
theorem runLoop_no_reset (os : List CycleObs) :
    ∀ (st : Store) (fails cursor : Nat),
      (runLoop st fails cursor os).hadReset = false →
      List.Pairwise (· < ·) (runLoop st fails cursor os).attempts ∧
      cursor ≤ (runLoop st fails cursor os).cursor ∧
      ∀ j ∈ (runLoop st fails cursor os).attempts,
        cursor ≤ j ∧ j + 1 ≤ (runLoop st fails cursor os).cursor := by
  induction os with
  | nil =>
    intro st fails cursor h
    rw [runLoop_nil]
    simp
  | cons o os ih =>
    intro st fails cursor h
    rw [runLoop_cons] at h ⊢
    by_cases hrt : o.runningAtTop = false
    · simp only [if_pos hrt] at h ⊢
      simp
    · simp only [if_neg hrt] at h ⊢
      by_cases hend : o.endReached = true
      · simp only [if_pos hend] at h ⊢
        have hnr : ¬ o.cards.length < cursor := by simpa using h
        obtain ⟨hI1, hI2, hI3⟩ := cycleInner_spec_no_reset st cursor o hnr
        exact ⟨hI2, hI1, hI3⟩
      · simp only [if_neg hend] at h ⊢
        by_cases hsc : o.afterCount ≤ o.beforeCount ∧ (cycleInner st cursor o).newData = 0
        · simp only [if_pos hsc] at h ⊢
          by_cases hmax : MAX_SCROLL_FAILS ≤ fails + 1
          · simp only [if_pos hmax] at h ⊢
            have hnr : ¬ o.cards.length < cursor := by simpa using h
            obtain ⟨hI1, hI2, hI3⟩ := cycleInner_spec_no_reset st cursor o hnr
            exact ⟨hI2, hI1, hI3⟩
          · simp only [if_neg hmax] at h ⊢
            simp only [Bool.or_eq_false_iff] at h
            obtain ⟨hr1, hr2⟩ := h
            have hnr : ¬ o.cards.length < cursor := by simpa using hr1
            obtain ⟨hI1, hI2, hI3⟩ := cycleInner_spec_no_reset st cursor o hnr
            obtain ⟨ih1, ih2, ih3⟩ :=
              ih (cycleInner st cursor o).store (fails + 1) (cycleInner st cursor o).cursor hr2
            refine ⟨List.pairwise_append.mpr ⟨hI2, ih1, ?_⟩, le_trans hI1 ih2, ?_⟩
            · intro a ha b hb
              have ha2 := (hI3 a ha).2
              have hb2 := (ih3 b hb).1
              omega
            · intro j hj
              rcases List.mem_append.mp hj with hj | hj
              · obtain ⟨hj1, hj2⟩ := hI3 j hj
                exact ⟨hj1, by omega⟩
              · obtain ⟨hj1, hj2⟩ := ih3 j hj
                exact ⟨by omega, hj2⟩
        · simp only [if_neg hsc] at h ⊢
          simp only [Bool.or_eq_false_iff] at h
          obtain ⟨hr1, hr2⟩ := h
          have hnr : ¬ o.cards.length < cursor := by simpa using hr1
          obtain ⟨hI1, hI2, hI3⟩ := cycleInner_spec_no_reset st cursor o hnr
          obtain ⟨ih1, ih2, ih3⟩ :=
            ih (cycleInner st cursor o).store 0 (cycleInner st cursor o).cursor hr2
          refine ⟨List.pairwise_append.mpr ⟨hI2, ih1, ?_⟩, le_trans hI1 ih2, ?_⟩
          · intro a ha b hb
            have ha2 := (hI3 a ha).2
            have hb2 := (ih3 b hb).1
            omega
          · intro j hj
            rcases List.mem_append.mp hj with hj | hj
            · obtain ⟨hj1, hj2⟩ := hI3 j hj
              exact ⟨hj1, by omega⟩
            · obtain ⟨hj1, hj2⟩ := ih3 j hj
              exact ⟨by omega, hj2⟩

/-- Claim C5: never-replay.  In every run without a virtualization
reset, the indices at which a scrape was attempted are strictly
increasing across the whole cycle sequence — no index is attempted
twice, whether the attempt threw or a stop was observed — and the
cursor ends strictly beyond every attempted index (it was advanced to
index+1 before the attempt began). -/
theorem never_replay (st : Store) (fails cursor : Nat) (os : List CycleObs)
    (h : (runLoop st fails cursor os).hadReset = false) :
    List.Pairwise (· < ·) (runLoop st fails cursor os).attempts ∧
    (runLoop st fails cursor os).attempts.Nodup ∧
    ∀ j ∈ (runLoop st fails cursor os).attempts,
      j + 1 ≤ (runLoop st fails cursor os).cursor := by
  obtain ⟨h1, h2, h3⟩ := runLoop_no_reset os st fails cursor h
  exact ⟨h1, List.Pairwise.imp (fun hab => Nat.ne_of_lt hab) h1, fun j hj => (h3 j hj).2⟩

/-- Witness for C5 on a concrete one-cycle run. -/
theorem never_replay_witness :
    List.Pairwise (· < ·) (runLoop ⟨[], []⟩ 0 0 [⟨true, [], false, 0, 1⟩]).attempts ∧
    (runLoop ⟨[], []⟩ 0 0 [⟨true, [], false, 0, 1⟩]).attempts.Nodup ∧
    ∀ j ∈ (runLoop ⟨[], []⟩ 0 0 [⟨true, [], false, 0, 1⟩]).attempts,
      j + 1 ≤ (runLoop ⟨[], []⟩ 0 0 [⟨true, [], false, 0, 1⟩]).cursor :=
  never_replay ⟨[], []⟩ 0 0 [⟨true, [], false, 0, 1⟩] (by decide)

/-- A no-progress cycle below the fail limit increments the counter and
continues: exit kind and final counter are those of the rest of the
run started with `fails + 1`. -/
theorem runLoop_continue_step (st : Store) (fails cursor : Nat) (o : CycleObs)
    (os : List CycleObs)
    (hrt : o.runningAtTop = true) (hend : o.endReached = false)
    (hsc : o.afterCount ≤ o.beforeCount) (hnd : (cycleInner st cursor o).newData = 0)
    (hmax : ¬ MAX_SCROLL_FAILS ≤ fails + 1) :
    (runLoop st fails cursor (o :: os)).kind
      = (runLoop (cycleInner st cursor o).store (fails + 1)
          (cycleInner st cursor o).cursor os).kind ∧
    (runLoop st fails cursor (o :: os)).fails
      = (runLoop (cycleInner st cursor o).store (fails + 1)
          (cycleInner st cursor o).cursor os).fails := by
  rw [runLoop_cons]
  have hrt2 : ¬ o.runningAtTop = false := by simp [hrt]
  have hend2 : ¬ o.endReached = true := by simp [hend]
  rw [if_neg hrt2, if_neg hend2, if_pos ⟨hsc, hnd⟩, if_neg hmax]
  exact ⟨rfl, rfl⟩

/-- A no-progress cycle that reaches the fail limit exits through the
stall branch with the incremented counter. -/
theorem runLoop_stall_step (st : Store) (fails cursor : Nat) (o : CycleObs)
    (os : List CycleObs)
    (hrt : o.runningAtTop = true) (hend : o.endReached = false)
    (hsc : o.afterCount ≤ o.beforeCount) (hnd : (cycleInner st cursor o).newData = 0)
    (hmax : MAX_SCROLL_FAILS ≤ fails + 1) :
    (runLoop st fails cursor (o :: os)).kind = StopKind.stalled ∧
    (runLoop st fails cursor (o :: os)).fails = fails + 1 := by
  rw [runLoop_cons]
  have hrt2 : ¬ o.runningAtTop = false := by simp [hrt]
  have hend2 : ¬ o.endReached = true := by simp [hend]
  rw [if_neg hrt2, if_neg hend2, if_pos ⟨hsc, hnd⟩, if_pos hmax]
  exact ⟨rfl, rfl⟩

/-- Claim C3: stall termination.  Starting with a zero stall counter,
three consecutive cycles that each stay running, see no end-of-feed
marker, gain no entries from scrolling, and commit nothing, terminate
the run through the stall branch (`stalled`, not `exhausted`) with the
counter at `MAX_SCROLL_FAILS = 3`; and any cycle that grows the entry
count or commits a record resets the counter to 0 (the run continues as
if the incoming counter had been 0). -/
theorem stall_termination :
    (∀ (st : Store) (cursor : Nat) (o1 o2 o3 : CycleObs) (os : List CycleObs),
      o1.runningAtTop = true → o2.runningAtTop = true → o3.runningAtTop = true →
      o1.endReached = false → o2.endReached = false → o3.endReached = false →
      o1.afterCount ≤ o1.beforeCount → o2.afterCount ≤ o2.beforeCount →
      o3.afterCount ≤ o3.beforeCount →
      (cycleInner st cursor o1).newData = 0 →
      (cycleInner (cycleInner st cursor o1).store (cycleInner st cursor o1).cursor o2).newData = 0 →
      (cycleInner
        (cycleInner (cycleInner st cursor o1).store (cycleInner st cursor o1).cursor o2).store
        (cycleInner (cycleInner st cursor o1).store (cycleInner st cursor o1).cursor o2).cursor
        o3).newData = 0 →
      (runLoop st 0 cursor (o1 :: o2 :: o3 :: os)).kind = StopKind.stalled ∧
      (runLoop st 0 cursor (o1 :: o2 :: o3 :: os)).fails = MAX_SCROLL_FAILS) ∧
    (∀ (st : Store) (fails cursor : Nat) (o : CycleObs) (os : List CycleObs),
      o.runningAtTop = true → o.endReached = false →
      (o.beforeCount < o.afterCount ∨ 0 < (cycleInner st cursor o).newData) →
      runLoop st fails cursor (o :: os) = runLoop st 0 cursor (o :: os)) := by
  constructor
  · intro st cursor o1 o2 o3 os h1 h2 h3 he1 he2 he3 hb1 hb2 hb3 hn1 hn2 hn3
    have s1 := runLoop_continue_step st 0 cursor o1 (o2 :: o3 :: os) h1 he1 hb1 hn1 (by decide)
    have s2 := runLoop_continue_step (cycleInner st cursor o1).store 1
      (cycleInner st cursor o1).cursor o2 (o3 :: os) h2 he2 hb2 hn2 (by decide)
    have s3 := runLoop_stall_step
      (cycleInner (cycleInner st cursor o1).store (cycleInner st cursor o1).cursor o2).store 2
      (cycleInner (cycleInner st cursor o1).store (cycleInner st cursor o1).cursor o2).cursor
      o3 os h3 he3 hb3 hn3 (by decide)
    exact ⟨s1.1.trans (s2.1.trans s3.1), s1.2.trans (s2.2.trans s3.2)⟩
  · intro st fails cursor o os hrt hend hgc
    have hcond : ¬ (o.afterCount ≤ o.beforeCount ∧ (cycleInner st cursor o).newData = 0) := by
      rcases hgc with hg | hc
      · rintro ⟨ha, _⟩
        omega
      · rintro ⟨_, hb⟩
        omega
    have hrt2 : ¬ o.runningAtTop = false := by simp [hrt]
    have hend2 : ¬ o.endReached = true := by simp [hend]
    rw [runLoop_cons, runLoop_cons, if_neg hrt2, if_neg hend2, if_neg hcond,
      if_neg hrt2, if_neg hend2, if_neg hcond]

/-- Witness for C3: three empty no-progress cycles from a fresh store
end in the stalled state with the counter at 3. -/
theorem stall_termination_witness :
    (runLoop ⟨[], []⟩ 0 0
      [⟨true, [], false, 0, 0⟩, ⟨true, [], false, 0, 0⟩, ⟨true, [], false, 0, 0⟩]).kind
        = StopKind.stalled ∧
    (runLoop ⟨[], []⟩ 0 0
      [⟨true, [], false, 0, 0⟩, ⟨true, [], false, 0, 0⟩, ⟨true, [], false, 0, 0⟩]).fails
        = MAX_SCROLL_FAILS :=
  stall_termination.1 ⟨[], []⟩ 0 ⟨true, [], false, 0, 0⟩ ⟨true, [], false, 0, 0⟩
    ⟨true, [], false, 0, 0⟩ [] rfl rfl rfl rfl rfl rfl (by decide) (by decide) (by decide)
    (by decide) (by decide) (by decide)

end GMaps
